import Mathlib

/-!
Verification of `src/examples/boil/src/render.cc` (noodles repository).

The file renders an 80×24 character grid by sampling a rectangle of the
complex plane between two corner points.  `render` draws a character grid
from a boolean predicate; `render_colour` draws an ANSI 24-bit colour
gradient from a scalar map, via the polynomial colour map `colour_map`.

Embedding choices:
* `complex` (C++ `std::complex<double>`) is a pair of rationals; all
  arithmetic in the renderers is exact in ℚ (the renderers only add,
  subtract, multiply and divide by the fixed grid dimensions).
* `std::cout` output is modelled by accumulating a `String`; `std::endl`
  is a newline character.
* the C++ cast `int(...)` is truncation toward zero, `truncToInt`.
* `pow(x, n)` on doubles with a natural literal exponent is `x ^ n`.
-/

/-- `std::complex<double>`: a pair of coordinates, embedded with exact
rational arithmetic.  Field names follow the accessors `real()`/`imag()`. -/
structure complex where
  real : ℚ
  imag : ℚ
deriving DecidableEq, Repr

/-- Componentwise addition, as `operator+` on `std::complex`. -/
instance : Add complex :=
  ⟨fun x y => ⟨x.real + y.real, x.imag + y.imag⟩⟩

theorem complex.add_real (x y : complex) : (x + y).real = x.real + y.real := rfl

theorem complex.add_imag (x y : complex) : (x + y).imag = x.imag + y.imag := rfl

theorem complex.ext' {x y : complex} (hre : x.real = y.real)
    (him : x.imag = y.imag) : x = y := by
  cases x; cases y; cases hre; cases him; rfl

/-- The sample point of `render` at cell `(i, j)`:
`c = a + complex(i * scale_real, j * scale_imag)` with
`scale_real = (b.real() - a.real()) / width`,
`scale_imag = (b.imag() - a.imag()) / height`, `width = 80`, `height = 24`
(the two locals of `render`, inlined; over ℚ this is exact). -/
def sample (a b : complex) (i j : ℕ) : complex :=
  let scale_real := (b.real - a.real) / 80
  let scale_imag := (b.imag - a.imag) / 24
  a + ⟨i * scale_real, j * scale_imag⟩

/-- Row `j` of `render`'s output: the inner `for (i = 0; i < width; ++i)`
loop, printing `'#'` when the predicate holds at the sample and `' '`
otherwise. -/
def renderRow (pred : complex → Bool) (a b : complex) (j : ℕ) : List Char :=
  (List.range 80).map (fun i => if pred (sample a b i j) then '#' else ' ')

/-- The character grid of `render`: the outer `for (j = 0; j < height; ++j)`
loop, one row per iteration. -/
def renderGrid (pred : complex → Bool) (a b : complex) : List (List Char) :=
  (List.range 24).map (renderRow pred a b)

/-- `render(pred, a, b)`: everything written to `std::cout`, each row
followed by `std::endl`. -/
def render (pred : complex → Bool) (a b : complex) : String :=
  String.join ((renderGrid pred a b).map (fun row => String.mk row ++ "\n"))

/-- The sequence of points at which `render` evaluates `pred`, in
evaluation order (outer loop over `j`, inner loop over `i`). -/
def renderTrace (a b : complex) : List complex :=
  ((List.range 24).map (fun j => (List.range 80).map (fun i => sample a b i j))).flatten

/-- `struct Colour`: an RGB triple of C++ `int`s. -/
structure Colour where
  r : ℤ
  g : ℤ
  b : ℤ
deriving DecidableEq, Repr

/-- The C++ conversion `int(d)` applied to a double: truncation toward
zero.  On the exact rational `num/den` this is the toward-zero integer
division of the numerator by the denominator; `truncToInt_eq_floor_or_ceil`
below checks that this is floor for nonnegative and ceiling for negative
inputs. -/
def truncToInt (q : ℚ) : ℤ :=
  q.num.tdiv q.den

/-- `colour_map(x)`: the three pinned channel formulas of `render.cc`,
each scaled by 255 and cast to `int` (truncated toward zero), with no
clamping. -/
def colour_map (x : ℚ) : Colour :=
  let r := (0.472 - 0.567*x + 4.05*x^2)
            / (1 + 8.72*x - 19.17*x^2 + 14.1*x^3)
  let g := 0.108932 - 1.22635*x + 27.284*x^2 - 98.577*x^3
            + 163.3*x^4 - 131.395*x^5 + 40.634*x^6
  let b := 1 / (1.97 + 3.54*x - 68.5*x^2 + 243*x^3
            - 297*x^4 + 125*x^5)
  ⟨truncToInt (r*255), truncToInt (g*255), truncToInt (b*255)⟩

/-- The sample point of `render_colour` at cell `(i, j)`: its loop body
computes `c` exactly as `render` does, from its own local scale factors. -/
def sample_colour (a b : complex) (i j : ℕ) : complex :=
  let scale_real := (b.real - a.real) / 80
  let scale_imag := (b.imag - a.imag) / 24
  a + ⟨i * scale_real, j * scale_imag⟩

/-- The per-cell output of `render_colour`:
`"\033[38;2;" << r << ";" << g << ";" << b << "m#"`. -/
def cellEscape (col : Colour) : String :=
  "\x1b[38;2;" ++ toString col.r ++ ";" ++ toString col.g ++ ";"
    ++ toString col.b ++ "m#"

/-- `render_colour(f, a, b)`: everything written to `std::cout` — the
coloured cells row by row, `std::endl` after each row, and the final
reset sequence `"\033[m"`. -/
def render_colour (f : complex → ℚ) (a b : complex) : String :=
  String.join ((List.range 24).map (fun j =>
    String.join ((List.range 80).map (fun i =>
      cellEscape (colour_map (f (sample_colour a b i j))))) ++ "\n"))
  ++ "\x1b[m"

/-- The sequence of points at which `render_colour` evaluates `f`, in
evaluation order. -/
def renderColourTrace (a b : complex) : List complex :=
  ((List.range 24).map (fun j =>
    (List.range 80).map (fun i => sample_colour a b i j))).flatten

/-- The character of a character grid at column `i`, row `j` (with a
space for out-of-range indices). -/
def gridChar (grid : List (List Char)) (i j : ℕ) : Char :=
  (grid.getD j []).getD i ' '

/-- `i * (d / n) = (i * d) / n` over ℚ: the sample point in the spec's
form. -/
theorem sample_eq (a b : complex) (i j : ℕ) :
    sample a b i j =
      a + ⟨(i * (b.real - a.real)) / 80, (j * (b.imag - a.imag)) / 24⟩ := by
  unfold sample
  exact congrArg (a + ·) (by rw [mul_div_assoc, mul_div_assoc])

/-- `truncToInt` truncates toward zero: floor for nonnegative inputs,
ceiling for negative ones. -/
theorem truncToInt_eq_floor_or_ceil (q : ℚ) :
    truncToInt q = if 0 ≤ q then ⌊q⌋ else ⌈q⌉ := by
  unfold truncToInt
  rcases le_or_lt 0 q with h | h
  · rw [if_pos h, Rat.floor_def,
      Int.tdiv_eq_ediv (Rat.num_nonneg.mpr h) (Int.ofNat_nonneg q.den)]
  · have hceil : ⌈q⌉ = -⌊-q⌋ := by
      rw [← neg_neg q, Int.ceil_neg, neg_neg]
    have hnum : (0 : ℤ) ≤ -q.num := by
      have : q.num < 0 := Rat.num_neg.mpr h
      omega
    rw [if_neg (not_le.mpr h), hceil, Rat.floor_def, Rat.neg_den,
      Rat.num_neg_eq_neg_num,
      ← Int.tdiv_eq_ediv hnum (Int.ofNat_nonneg q.den), Int.neg_tdiv, neg_neg]

theorem truncToInt_eq_of_nonneg {q : ℚ} {n : ℤ} (h0 : 0 ≤ q)
    (h1 : (n : ℚ) ≤ q) (h2 : q < n + 1) : truncToInt q = n := by
  rw [truncToInt_eq_floor_or_ceil, if_pos h0]
  exact Int.floor_eq_iff.mpr ⟨h1, h2⟩

theorem truncToInt_eq_of_neg {q : ℚ} {n : ℤ} (h0 : ¬ 0 ≤ q)
    (h1 : (n : ℚ) - 1 < q) (h2 : q ≤ n) : truncToInt q = n := by
  rw [truncToInt_eq_floor_or_ceil, if_neg h0]
  exact Int.ceil_eq_iff.mpr ⟨h1, h2⟩

/-- `colour_map(0)` evaluates to the pinned reference triple. -/
theorem colour_map_zero : colour_map 0 = ⟨120, 27, 129⟩ := by
  simp only [colour_map, Colour.mk.injEq]
  refine ⟨?_, ?_, ?_⟩ <;>
    exact truncToInt_eq_of_nonneg (by norm_num) (by norm_num) (by norm_num)

/-- Same algebraic rewriting for `render_colour`'s own sample point. -/
theorem sample_colour_eq (a b : complex) (i j : ℕ) :
    sample_colour a b i j =
      a + ⟨(i * (b.real - a.real)) / 80, (j * (b.imag - a.imag)) / 24⟩ := by
  unfold sample_colour
  exact congrArg (a + ·) (by rw [mul_div_assoc, mul_div_assoc])

/-- C1: grid sampling is linear and exhaustive.  The sequence of points at
which `render` evaluates its predicate is exactly, cell `(i, j)` sampling
`a + (i·(b.re−a.re)/80, j·(b.im−a.im)/24)`, all 80·24 combinations once
each, row-major (`j` outer, `i` inner). -/
theorem render_samples_linear_exhaustive (a b : complex) :
    renderTrace a b =
      ((List.range 24).map (fun j => (List.range 80).map (fun i =>
        a + ⟨(i * (b.real - a.real)) / 80, (j * (b.imag - a.imag)) / 24⟩))).flatten ∧
    (renderTrace a b).length = 80 * 24 := by
  constructor
  · simp only [renderTrace, sample_eq]
  · simp [renderTrace, List.length_flatten, List.map_map, Function.comp_def]

/-- C2: for corners `a ≠ b` the predicate renderer yields exactly 24 rows
of exactly 80 characters, the output string being those rows each followed
by a newline; an always-true predicate gives all `'#'`, an always-false
predicate all `' '`. -/
theorem render_shape (pred : complex → Bool) (a b : complex) (hab : a ≠ b) :
    render pred a b =
      String.join ((renderGrid pred a b).map (fun row => String.mk row ++ "\n")) ∧
    (renderGrid pred a b).length = 24 ∧
    (∀ row ∈ renderGrid pred a b, row.length = 80) ∧
    renderGrid (fun _ => true) a b = List.replicate 24 (List.replicate 80 '#') ∧
    renderGrid (fun _ => false) a b = List.replicate 24 (List.replicate 80 ' ') := by
  refine ⟨rfl, by simp [renderGrid], ?_, ?_, ?_⟩
  · intro row hrow
    simp only [renderGrid, List.mem_map] at hrow
    obtain ⟨j, _, rfl⟩ := hrow
    simp [renderRow]
  · rw [List.eq_replicate_iff]
    refine ⟨by simp [renderGrid], fun row hrow => ?_⟩
    simp only [renderGrid, List.mem_map] at hrow
    obtain ⟨j, _, rfl⟩ := hrow
    rw [List.eq_replicate_iff]
    refine ⟨by simp [renderRow], fun ch hch => ?_⟩
    simp only [renderRow, List.mem_map] at hch
    obtain ⟨i, _, rfl⟩ := hch
    simp
  · rw [List.eq_replicate_iff]
    refine ⟨by simp [renderGrid], fun row hrow => ?_⟩
    simp only [renderGrid, List.mem_map] at hrow
    obtain ⟨j, _, rfl⟩ := hrow
    rw [List.eq_replicate_iff]
    refine ⟨by simp [renderRow], fun ch hch => ?_⟩
    simp only [renderRow, List.mem_map] at hch
    obtain ⟨i, _, rfl⟩ := hch
    simp

theorem render_shape_witness :
    (renderGrid (fun _ => true) ⟨0, 0⟩ ⟨1, 1⟩).length = 24 :=
  (render_shape (fun _ => true) ⟨0, 0⟩ ⟨1, 1⟩
    (fun h => absurd (congrArg complex.real h) (by norm_num))).2.1

/-- C4: each channel of `colour_map` is its pinned formula, scaled by 255
and truncated toward zero, with no clamping: at `x = 2` the green channel
is 83362 (far above 255) and at `x = −1` the red channel is −31 (below 0,
and truncated toward zero, not floored). -/
theorem colour_map_channels :
    (∀ x : ℚ, colour_map x =
      ⟨truncToInt (((0.472 - 0.567*x + 4.05*x^2)
          / (1 + 8.72*x - 19.17*x^2 + 14.1*x^3)) * 255),
       truncToInt ((0.108932 - 1.22635*x + 27.284*x^2 - 98.577*x^3
          + 163.3*x^4 - 131.395*x^5 + 40.634*x^6) * 255),
       truncToInt ((1 / (1.97 + 3.54*x - 68.5*x^2 + 243*x^3
          - 297*x^4 + 125*x^5)) * 255)⟩) ∧
    (colour_map 2).g = 83362 ∧ 255 < (colour_map 2).g ∧
    (colour_map (-1)).r = -31 ∧ (colour_map (-1)).r < 0 := by
  have hg : (colour_map 2).g = 83362 := by
    simp only [colour_map]
    exact truncToInt_eq_of_nonneg (by norm_num) (by norm_num) (by norm_num)
  have hr : (colour_map (-1)).r = -31 := by
    simp only [colour_map]
    exact truncToInt_eq_of_neg (by norm_num) (by norm_num) (by norm_num)
  exact ⟨fun _ => rfl, hg, by rw [hg]; norm_num, hr, by rw [hr]; norm_num⟩

/-- C5: `render_colour` emits, for each cell in row-major order, the ANSI
24-bit foreground escape for the colour of that cell's sample followed by
`'#'`, a newline after each of the 24 rows, and ends with the reset
sequence `ESC[m`. -/
theorem render_colour_format (f : complex → ℚ) (a b : complex) :
    render_colour f a b =
      String.join ((List.range 24).map (fun j : ℕ =>
        String.join ((List.range 80).map (fun i : ℕ =>
          "\x1b[38;2;"
            ++ toString (colour_map (f (a + ⟨(i * (b.real - a.real)) / 80,
                  (j * (b.imag - a.imag)) / 24⟩))).r ++ ";"
            ++ toString (colour_map (f (a + ⟨(i * (b.real - a.real)) / 80,
                  (j * (b.imag - a.imag)) / 24⟩))).g ++ ";"
            ++ toString (colour_map (f (a + ⟨(i * (b.real - a.real)) / 80,
                  (j * (b.imag - a.imag)) / 24⟩))).b ++ "m#"))
          ++ "\n"))
      ++ "\x1b[m" := by
  simp only [render_colour, cellEscape, sample_colour_eq, String.append_assoc]

/-- C10: `render` and `render_colour` evaluate the caller-supplied
function at the same points in the same order. -/
theorem render_traces_agree (a b : complex) :
    renderColourTrace a b = renderTrace a b ∧
    ∀ i j : ℕ, sample_colour a b i j = sample a b i j :=
  ⟨rfl, fun _ _ => rfl⟩

/-- Cell access into the grid of `render`: row `j`, column `i`. -/
theorem renderGrid_get (pred : complex → Bool) (a b : complex) {i j : ℕ}
    (hi : i < 80) (hj : j < 24) :
    gridChar (renderGrid pred a b) i j =
      (if pred (sample a b i j) then '#' else ' ') := by
  unfold gridChar
  have hrow : (renderGrid pred a b).getD j [] = renderRow pred a b j := by
    unfold renderGrid
    rw [List.getD_eq_getElem _ _ (by simpa using hj)]
    simp only [List.getElem_map, List.getElem_range]
  rw [hrow]
  unfold renderRow
  rw [List.getD_eq_getElem _ _ (by simpa using hi)]
  simp only [List.getElem_map, List.getElem_range]

/-- Swapping the corners reflects the sampling lattice about its centre,
but with a one-cell shift: the swapped sample at `(i, j)` is the original
lattice point at index `(80 − i, 24 − j)`, not `(79 − i, 23 − j)`. -/
theorem sample_swap (a b : complex) {i j : ℕ} (hi : i ≤ 80) (hj : j ≤ 24) :
    sample b a i j = sample a b (80 - i) (24 - j) := by
  apply complex.ext'
  · simp only [sample, complex.add_real]
    rw [Nat.cast_sub hi]
    push_cast
    ring
  · simp only [sample, complex.add_imag]
    rw [Nat.cast_sub hj]
    push_cast
    ring

/-- C6, counterexample: the swapped render is NOT the cell-wise mirror of
the original render.  With corners `(0,0)` and `(80,24)` and the predicate
`real = 80`, cell `(0,0)` of the swapped render samples the point
`(80,24)` (giving `'#'`) while cell `(79,23)` of the original render
samples `(79,23)` (giving `' '`). -/
theorem render_mirror_counterexample :
    ¬ (∀ (pred : complex → Bool) (a b : complex) (i j : ℕ),
        i < 80 → j < 24 →
        gridChar (renderGrid pred b a) i j
          = gridChar (renderGrid pred a b) (79 - i) (23 - j)) := by
  intro h
  have h0 := h (fun c => decide (c.real = 80)) ⟨0, 0⟩ ⟨80, 24⟩ 0 0
      (by norm_num) (by norm_num)
  rw [renderGrid_get _ _ _ (by norm_num) (by norm_num),
    renderGrid_get _ _ _ (by norm_num) (by norm_num)] at h0
  have e1 : sample ⟨80, 24⟩ ⟨0, 0⟩ 0 0 = ⟨80, 24⟩ := by
    apply complex.ext' <;> simp [sample, complex.add_real, complex.add_imag]
  have e2 : sample ⟨0, 0⟩ ⟨80, 24⟩ (79 - 0) (23 - 0) = ⟨79, 23⟩ := by
    apply complex.ext' <;>
      norm_num [sample, complex.add_real, complex.add_imag]
  rw [e1, e2] at h0
  norm_num at h0
  exact absurd h0 (by decide)

/-- C6, amended: swapping the corners reflects the sampling, shifted by
one cell: the character of `render pred b a` at cell `(i, j)` is the
predicate's verdict at the original lattice point of index
`(80 − i, 24 − j)`. -/
theorem render_swap_shifted_mirror (pred : complex → Bool) (a b : complex)
    {i j : ℕ} (hi : i < 80) (hj : j < 24) :
    gridChar (renderGrid pred b a) i j =
      (if pred (sample a b (80 - i) (24 - j)) then '#' else ' ') := by
  rw [renderGrid_get pred b a hi hj,
    sample_swap a b (le_of_lt hi) (le_of_lt hj)]

theorem render_swap_shifted_mirror_witness :
    gridChar (renderGrid (fun _ => true) ⟨1, 2⟩ ⟨0, 0⟩) 3 4 = '#' := by
  have h := render_swap_shifted_mirror (fun _ => true) ⟨0, 0⟩ ⟨1, 2⟩
      (show (3 : ℕ) < 80 by norm_num) (show (4 : ℕ) < 24 by norm_num)
  simpa using h

/-- C8: with equal corners every sample point is the corner itself and the
grid is 24 identical rows of 80 identical characters; all divisions are by
the fixed dimensions, so nothing fails. -/
theorem render_degenerate_corners (pred : complex → Bool) (a : complex) :
    (∀ i j : ℕ, sample a a i j = a) ∧
    renderGrid pred a a =
      List.replicate 24 (List.replicate 80 (if pred a then '#' else ' ')) := by
  have hs : ∀ i j : ℕ, sample a a i j = a := by
    intro i j
    apply complex.ext' <;> simp [sample, complex.add_real, complex.add_imag]
  refine ⟨hs, ?_⟩
  rw [List.eq_replicate_iff]
  refine ⟨by simp [renderGrid], fun row hrow => ?_⟩
  simp only [renderGrid, List.mem_map] at hrow
  obtain ⟨j, _, rfl⟩ := hrow
  rw [List.eq_replicate_iff]
  refine ⟨by simp [renderRow], fun ch hch => ?_⟩
  simp only [renderRow, List.mem_map] at hch
  obtain ⟨i, _, rfl⟩ := hch
  rw [hs]

theorem interp_lt {n i : ℕ} (hi : i < n) {x y : ℚ} (hxy : x < y) :
    x + i * ((y - x) / n) < y := by
  have hn : (0 : ℚ) < n := by
    exact_mod_cast Nat.lt_of_le_of_lt (Nat.zero_le i) hi
  have hi' : (i : ℚ) < n := by exact_mod_cast hi
  have h1 : (i : ℚ) * ((y - x) / n) < n * ((y - x) / n) :=
    mul_lt_mul_of_pos_right hi' (div_pos (sub_pos.mpr hxy) hn)
  have h2 : (n : ℚ) * ((y - x) / n) = y - x := by
    field_simp
  linarith

theorem interp_gt {n i : ℕ} (hi : i < n) {x y : ℚ} (hxy : y < x) :
    y < x + i * ((y - x) / n) := by
  have hn : (0 : ℚ) < n := by
    exact_mod_cast Nat.lt_of_le_of_lt (Nat.zero_le i) hi
  have hi' : (i : ℚ) < n := by exact_mod_cast hi
  have h1 : (n : ℚ) * ((y - x) / n) < i * ((y - x) / n) :=
    mul_lt_mul_of_neg_right hi' (div_neg_of_neg_of_pos (sub_neg.mpr hxy) hn)
  have h2 : (n : ℚ) * ((y - x) / n) = y - x := by
    field_simp
  linarith

theorem interp_eq_imp {n i : ℕ} (hi : i < n) {x y : ℚ}
    (h : x + i * ((y - x) / n) = y) : y = x := by
  rcases lt_trichotomy x y with hlt | heq | hgt
  · exact absurd h (ne_of_lt (interp_lt hi hlt))
  · exact heq.symm
  · exact absurd h (ne_of_gt (interp_gt hi hgt))

/-- C9: the grid is half-open — for distinct corners, neither renderer
ever samples the corner `b`, and on every axis where the corners differ
each sample is strictly short of `b`'s coordinate. -/
theorem sample_halfopen (a b : complex) {i j : ℕ} (hab : a ≠ b)
    (hi : i < 80) (hj : j < 24) :
    sample a b i j ≠ b ∧ sample_colour a b i j ≠ b ∧
    (a.real < b.real → (sample a b i j).real < b.real) ∧
    (b.real < a.real → b.real < (sample a b i j).real) ∧
    (a.imag < b.imag → (sample a b i j).imag < b.imag) ∧
    (b.imag < a.imag → b.imag < (sample a b i j).imag) := by
  have hre : (sample a b i j).real = a.real + i * ((b.real - a.real) / 80) := by
    simp [sample, complex.add_real]
  have him : (sample a b i j).imag = a.imag + j * ((b.imag - a.imag) / 24) := by
    simp [sample, complex.add_imag]
  have hne : sample a b i j ≠ b := by
    intro h
    apply hab
    apply complex.ext'
    · refine (interp_eq_imp hi ?_).symm
      push_cast
      rw [← hre, h]
    · refine (interp_eq_imp hj ?_).symm
      push_cast
      rw [← him, h]
  refine ⟨hne, hne, ?_, ?_, ?_, ?_⟩
  · intro hlt
    have h1 := interp_lt hi hlt
    push_cast at h1
    rw [hre]; exact h1
  · intro hgt
    have h1 := interp_gt hi hgt
    push_cast at h1
    rw [hre]; exact h1
  · intro hlt
    have h1 := interp_lt hj hlt
    push_cast at h1
    rw [him]; exact h1
  · intro hgt
    have h1 := interp_gt hj hgt
    push_cast at h1
    rw [him]; exact h1

theorem sample_halfopen_witness :
    sample ⟨0, 0⟩ ⟨1, 1⟩ 0 0 ≠ ⟨1, 1⟩ :=
  (sample_halfopen ⟨0, 0⟩ ⟨1, 1⟩
    (fun h => absurd (congrArg complex.real h) (by norm_num))
    (by norm_num) (by norm_num)).1
